import Mathlib

/-
Verification development for the community-intel-cache repository.

The definitions below are a shallow embedding of the staleness, interval,
backoff, extraction, and review-ledger logic from the source files
(cache.ts, extract.ts, cli.ts, write.ts, types.ts).  Machine timestamps
are modelled as integers (milliseconds since the epoch); JavaScript date
parsing is modelled by the JsonTime type, whose getTime projection yields
none exactly when the JavaScript Date would be an Invalid Date (NaN).
File-system reads are modelled by explicit state records whose fields say
which artifacts exist and what they parse to.
-/

namespace CommunityIntelCache

/-- Result of reading a JSON timestamp field: the field can be missing
(undefined in JavaScript), present but not a parseable date string
(Invalid Date, getTime is NaN), or a parseable date with an epoch-ms value. -/
inductive JsonTime where
  | absent
  | invalid
  | time (ms : Int)
deriving DecidableEq, Repr

/-- JavaScript Date.getTime on the parsed field: none models NaN. -/
def JsonTime.getTime : JsonTime → Option Int
  | .time ms => some ms
  | _ => none

/-- JavaScript comparison a > b where a may be NaN (none): any comparison
with NaN is false. -/
def nanGt : Option Int → Int → Bool
  | none, _ => false
  | some a, b => decide (b < a)

/-- Maximum cache age before forced refresh, from types.ts (clock skew guard). -/
def MAX_CACHE_AGE_DAYS : Int := 60

/-- Backoff period in hours when all queries fail, from types.ts. -/
def BACKOFF_HOURS : Int := 4

/-- Defaults for optional config fields, from types.ts CONFIG_DEFAULTS. -/
structure ConfigDefaults where
  refreshIntervalDays : Int
  thinCacheIntervalDays : Int
  days : Int
  minScore : Int
  minSummaryLength : Int

/-- The CONFIG_DEFAULTS constant of types.ts. -/
def CONFIG_DEFAULTS : ConfigDefaults :=
  { refreshIntervalDays := 30
    thinCacheIntervalDays := 7
    days := 7
    minScore := 25
    minSummaryLength := 40 }

/-- Configuration loaded from community-intel.json (types.ts CacheConfig).
Optional numeric fields are modelled as Option Int since consumers supply
arbitrary JSON numbers. -/
structure CacheConfig where
  topics : List String
  refreshIntervalDays : Option Int
  thinCacheIntervalDays : Option Int
  context : Option String
  days : Option Int
  minScore : Option Int
  minSummaryLength : Option Int

/-- Metadata stored in last-updated.json (types.ts CacheMetadata).  The two
timestamp fields are JsonTime values: what the stored strings parse to. -/
structure CacheMetadata where
  last_updated : JsonTime
  topics_researched : List String
  next_update_after : JsonTime
deriving DecidableEq, Repr

/-- On-disk state consulted by isCacheFresh: whether last-updated.json
exists, what readJsonFileOrDefault yields for it (none when the file is
corrupt text), and whether staged-intel.md exists. -/
structure StaleState where
  metadataExists : Bool
  metadata : Option CacheMetadata
  intelExists : Bool

/-- cache.ts isCacheFresh: false when the metadata file is missing, the
intel file is missing, or the metadata is unreadable; otherwise applies the
clock-skew age guard and requires next_update_after to be in the future.
The NaN semantics of JavaScript date arithmetic is preserved: a comparison
against NaN is false. -/
def isCacheFresh (s : StaleState) (now : Int) : Bool :=
  if !s.metadataExists then false
  else if !s.intelExists then false
  else
    match s.metadata with
    | none => false
    | some metadata =>
      let ageMs := metadata.last_updated.getTime.map (fun t => now - t)
      if nanGt ageMs (MAX_CACHE_AGE_DAYS * 24 * 60 * 60 * 1000) then false
      else nanGt metadata.next_update_after.getTime now

/-- cache.ts calculateNextUpdate: full interval when at least half of the
topics succeeded, thin interval otherwise; the JavaScript comparison
successCount < totalTopics / 2 is exact rational arithmetic here. -/
def calculateNextUpdate (successCount totalTopics : Nat) (config : CacheConfig)
    (now : Int) : Int :=
  let refreshDays := config.refreshIntervalDays.getD CONFIG_DEFAULTS.refreshIntervalDays
  let thinDays := config.thinCacheIntervalDays.getD CONFIG_DEFAULTS.thinCacheIntervalDays
  let intervalDays := if (successCount : ℚ) < (totalTopics : ℚ) / 2 then thinDays else refreshDays
  now + intervalDays * (24 * 60 * 60 * 1000)

/-- cache.ts getIntervalDays: the interval the same decision would use,
exposed for status reporting. -/
def getIntervalDays (successCount totalTopics : Nat) (config : CacheConfig) : Int :=
  let refreshDays := config.refreshIntervalDays.getD CONFIG_DEFAULTS.refreshIntervalDays
  let thinDays := config.thinCacheIntervalDays.getD CONFIG_DEFAULTS.thinCacheIntervalDays
  if (successCount : ℚ) < (totalTopics : ℚ) / 2 then thinDays else refreshDays

/-- cache.ts buildBackoffMetadata: preserves the prior last_updated field
when the prior metadata is readable and carries one (the JavaScript
nullish-coalescing falls back to the current time when the prior metadata
is missing, unreadable, or lacks the field), and sets next_update_after to
BACKOFF_HOURS hours from now. -/
def buildBackoffMetadata (existing : Option CacheMetadata) (topics : List String)
    (now : Int) : CacheMetadata :=
  let preservedTimestamp : JsonTime :=
    match existing with
    | none => .time now
    | some m =>
      match m.last_updated with
      | .absent => .time now
      | t => t
  { last_updated := preservedTimestamp
    topics_researched := topics
    next_update_after := .time (now + BACKOFF_HOURS * 60 * 60 * 1000) }

/-- The metadata value written by the successful-refresh path of cli.ts
executeRefresh: last_updated is the current time, next_update_after the
calculateNextUpdate result for config.topics.length topics. -/
def refreshMetadata (successCount : Nat) (config : CacheConfig) (now : Int) : CacheMetadata :=
  { last_updated := .time now
    topics_researched := config.topics
    next_update_after := .time (calculateNextUpdate successCount config.topics.length config now) }

/-- The spec invariant on written metadata: whenever both timestamp fields
parse, next_update_after is at least last_updated. -/
def metadataOk (m : CacheMetadata) : Bool :=
  match m.last_updated.getTime, m.next_update_after.getTime with
  | some lu, some nu => decide (lu ≤ nu)
  | _, _ => true

/-- Reddit item of a Last30DaysReport (types.ts). -/
structure RedditItem where
  title : String
  url : String
  subreddit : String
  date : Option String
  why_relevant : String
  score : Int
  comment_insights : List String
deriving DecidableEq, Repr

/-- X item of a Last30DaysReport (types.ts). -/
structure XItem where
  text : String
  url : String
  author_handle : String
  date : Option String
  why_relevant : String
  score : Int
deriving DecidableEq, Repr

/-- Web item of a Last30DaysReport (types.ts). -/
structure WebItem where
  title : String
  url : String
  source_domain : String
  snippet : String
  why_relevant : String
  score : Int
deriving DecidableEq, Repr

/-- Serialized output shape of one gathering query (types.ts
Last30DaysReport).  The optional passthrough metadata fields (range, days,
generated_at, mode, model names, best_practices, prompt_pack,
context_snippet_md) are omitted: no function modelled here reads them. -/
structure Last30DaysReport where
  topic : String
  reddit : List RedditItem
  x : List XItem
  web : List WebItem
deriving DecidableEq, Repr

/-- Source type of a finding (types.ts Finding.type). -/
inductive FindingType where
  | reddit
  | x
  | web
deriving DecidableEq, Repr

/-- A single finding extracted from a report for review (types.ts Finding). -/
structure Finding where
  hash : String
  type : FindingType
  topic : String
  title : String
  summary : String
  url : String
  score : Int
  date : Option String
deriving DecidableEq, Repr

/-- Modelled from the spec: sha256 lives in the external package
side-quest core/hash, which is not part of this repository.  Section 4.1
of the spec requires only a pure, deterministic, injective content-address
over URLs; the identity embedding realises exactly that contract. -/
def sha256 (s : String) : String := s

/-- extract.ts computeFindingHash: stable hash of the finding URL. -/
def computeFindingHash (url : String) : String := sha256 url

/-- Options for quality filtering during extraction (types.ts
QualityFilterOptions). -/
structure QualityFilterOptions where
  minScore : Option Int
  minSummaryLength : Option Int
deriving DecidableEq, Repr

/-- The effective minScore of extract.ts: options minScore when given,
otherwise the CONFIG_DEFAULTS value. -/
def resolvedMinScore (options : Option QualityFilterOptions) : Int :=
  (options.bind QualityFilterOptions.minScore).getD CONFIG_DEFAULTS.minScore

/-- The effective minSummaryLength of extract.ts. -/
def resolvedMinSummaryLength (options : Option QualityFilterOptions) : Int :=
  (options.bind QualityFilterOptions.minSummaryLength).getD CONFIG_DEFAULTS.minSummaryLength

/-- The preview truncation extract.ts applies to X post text: slice to 120
characters with an ellipsis marker when longer. -/
def xPreview (text : String) : String :=
  if 120 < text.length then text.take 120 ++ "..." else text

/-- One step of the mutable-Set dedup filter of extract.ts: skip a finding
whose hash is in the seen set, otherwise keep it and add its hash. -/
def dedupStep (acc : List Finding × List String) (f : Finding) : List Finding × List String :=
  if acc.2.contains f.hash then acc else (acc.1 ++ [f], acc.2 ++ [f.hash])

/-- The mutable-Set dedup of extract.ts: findings.filter keeps a finding
exactly when its hash was not already added to the seen set. -/
def dedupByHashFold (findings : List Finding) : List Finding :=
  (findings.foldl dedupStep (([] : List Finding), ([] : List String))).1

/-- extract.ts extractFindings: flatten each report into reddit, x, web
findings in that order, dropping items below the score or summary-length
thresholds, then deduplicate by hash with the first occurrence winning.
The nested loops with continue are modelled by the inner folds. -/
def extractFindings (reports : List Last30DaysReport)
    (options : Option QualityFilterOptions) : List Finding :=
  let minScore := resolvedMinScore options
  let minSummaryLength := resolvedMinSummaryLength options
  let findings := reports.foldl
    (fun findings report =>
      let findings := report.reddit.foldl
        (fun findings item =>
          if item.score < minScore then findings
          else if (item.why_relevant.length : Int) < minSummaryLength then findings
          else findings ++ [⟨computeFindingHash item.url, .reddit, report.topic,
            item.title, item.why_relevant, item.url, item.score, item.date⟩]) findings
      let findings := report.x.foldl
        (fun findings item =>
          if item.score < minScore then findings
          else if (item.why_relevant.length : Int) < minSummaryLength then findings
          else findings ++ [⟨computeFindingHash item.url, .x, report.topic,
            xPreview item.text, item.why_relevant, item.url, item.score, item.date⟩]) findings
      report.web.foldl
        (fun findings item =>
          if item.score < minScore then findings
          else if (item.why_relevant.length : Int) < minSummaryLength then findings
          else findings ++ [⟨computeFindingHash item.url, .web, report.topic,
            item.title, item.why_relevant, item.url, item.score, none⟩]) findings)
    []
  dedupByHashFold findings

/-- The quality filter of section 4.2 of the spec, as the keep-condition the
extraction loops test: an item survives exactly when neither threshold
rejects it. -/
def passesQualityFilter (minScore minSummaryLength score : Int) (summary : String) : Bool :=
  !(decide (score < minScore)) && !(decide ((summary.length : Int) < minSummaryLength))

/-- Declarative finding a reddit item maps to. -/
def redditFinding (topic : String) (item : RedditItem) : Finding :=
  ⟨computeFindingHash item.url, .reddit, topic, item.title, item.why_relevant,
    item.url, item.score, item.date⟩

/-- Declarative finding an X item maps to. -/
def xFinding (topic : String) (item : XItem) : Finding :=
  ⟨computeFindingHash item.url, .x, topic, xPreview item.text, item.why_relevant,
    item.url, item.score, item.date⟩

/-- Declarative finding a web item maps to (date is null: the source
provides none). -/
def webFinding (topic : String) (item : WebItem) : Finding :=
  ⟨computeFindingHash item.url, .web, topic, item.title, item.why_relevant,
    item.url, item.score, none⟩

/-- Declarative per-report extraction: quality-filtered reddit findings,
then x findings, then web findings. -/
def reportFindings (minScore minSummaryLength : Int) (r : Last30DaysReport) : List Finding :=
  (r.reddit.filter (fun i => passesQualityFilter minScore minSummaryLength i.score i.why_relevant)).map
      (redditFinding r.topic)
    ++ (r.x.filter (fun i => passesQualityFilter minScore minSummaryLength i.score i.why_relevant)).map
      (xFinding r.topic)
    ++ (r.web.filter (fun i => passesQualityFilter minScore minSummaryLength i.score i.why_relevant)).map
      (webFinding r.topic)

/-- Declarative flattening across reports, in input-report order. -/
def flatFindings (minScore minSummaryLength : Int) : List Last30DaysReport → List Finding
  | [] => []
  | r :: rs => reportFindings minScore minSummaryLength r ++ flatFindings minScore minSummaryLength rs

/-- Declarative first-occurrence dedup by hash, given the hashes already
seen. -/
def dedupFirst : List Finding → List String → List Finding
  | [], _ => []
  | f :: rest, seen =>
    if seen.contains f.hash then dedupFirst rest seen
    else f :: dedupFirst rest (seen ++ [f.hash])

/-- Review decision (types.ts). -/
inductive Decision where
  | accepted
  | rejected
deriving DecidableEq, Repr

/-- A record of a review decision for a finding hash (types.ts
ReviewedEntry). -/
structure ReviewedEntry where
  hash : String
  decision : Decision
  date : String
deriving DecidableEq, Repr

/-- Persisted file tracking reviewed findings (types.ts ReviewedHashes). -/
structure ReviewedHashes where
  version : Int
  reviewed : List ReviewedEntry
deriving DecidableEq, Repr

/-- Status of an extraction query (types.ts ExtractResult.status). -/
inductive ExtractStatus where
  | has_new
  | no_new
  | no_staged
deriving DecidableEq, Repr

/-- Result from extracting unreviewed findings (types.ts ExtractResult). -/
structure ExtractResult where
  status : ExtractStatus
  findings : List Finding
deriving DecidableEq, Repr

/-- On-disk state consulted by getUnreviewedFindings: whether
staged-raw.json exists, what it parses to (none when corrupt), and what
reviewed-hashes.json reads as (none when absent or corrupt, in which case
readJsonFileOrDefault substitutes the empty ledger). -/
structure ReviewDirState where
  stagedRawExists : Bool
  stagedRawContent : Option (List Last30DaysReport)
  reviewedContent : Option ReviewedHashes

/-- extract.ts getUnreviewedFindings: no_staged when staged-raw.json is
absent; otherwise extract (substituting an empty report list when the raw
file is unreadable), and report no_new when nothing survives extraction or
the ledger covers everything, has_new with the unreviewed findings
otherwise. -/
def getUnreviewedFindings (s : ReviewDirState)
    (options : Option QualityFilterOptions) : ExtractResult :=
  if !s.stagedRawExists then { status := .no_staged, findings := [] }
  else
    let reports := s.stagedRawContent.getD []
    let allFindings := extractFindings reports options
    if allFindings.length = 0 then { status := .no_new, findings := [] }
    else
      let reviewed := s.reviewedContent.getD { version := 1, reviewed := [] }
      let reviewedSet := reviewed.reviewed.map ReviewedEntry.hash
      let unreviewed := allFindings.filter (fun f => !(reviewedSet.contains f.hash))
      if unreviewed.length = 0 then { status := .no_new, findings := [] }
      else { status := .has_new, findings := unreviewed }

/-- The ledger hashes getUnreviewedFindings subtracts. -/
def ledgerHashes (s : ReviewDirState) : List String :=
  (s.reviewedContent.getD { version := 1, reviewed := [] }).reviewed.map ReviewedEntry.hash

/-- The unreviewed findings of a state: extracted findings whose hash has
no ledger entry, in extraction order. -/
def unreviewedOf (s : ReviewDirState) (options : Option QualityFilterOptions) : List Finding :=
  (extractFindings (s.stagedRawContent.getD []) options).filter
    (fun f => !((ledgerHashes s).contains f.hash))

/-- cli.ts executeReview, ledger core: build the new entries for the batch,
drop every existing entry whose hash is in the batch, append the new
entries, keep the version. -/
def recordDecisions (existing : ReviewedHashes) (hashes : List String)
    (decision : Decision) (now : String) : ReviewedHashes :=
  let newEntries := hashes.map (fun hash => ReviewedEntry.mk hash decision now)
  let newHashSet := newEntries.map ReviewedEntry.hash
  { version := existing.version
    reviewed := existing.reviewed.filter (fun r => !(newHashSet.contains r.hash)) ++ newEntries }

/-- C1 counterexample: the metadata file exists and JSON-parses, the content
file exists, the last_updated field is an unparseable timestamp, and
next_update_after parses to 1 ms after the epoch.  Evaluated at time 0,
isCacheFresh returns true, although the claim requires false whenever any
metadata field fails to parse: the NaN age silently skips the age guard. -/
theorem C1_counterexample :
    isCacheFresh ⟨true, some ⟨JsonTime.invalid, ["t"], JsonTime.time 1⟩, true⟩ 0 = true := by
  decide

/-- C1 (amended): a metadata artifact that fails to parse as a whole yields
not fresh, and a metadata whose next_update_after fails to parse yields not
fresh; an unparseable last_updated alone does not force not fresh. -/
theorem C1_parse_failure_not_fresh (s : StaleState) (now : Int) :
    (s.metadata = none → isCacheFresh s now = false) ∧
    (∀ m, s.metadata = some m → m.next_update_after.getTime = none →
      isCacheFresh s now = false) := by
  constructor
  · intro h
    simp [isCacheFresh, h]
  · intro m hm hnu
    simp [isCacheFresh, hm, hnu, nanGt]

/-- C1 witness: at a concrete state whose next_update_after is corrupt, the
amended theorem yields not fresh. -/
theorem C1_parse_failure_not_fresh_witness :
    isCacheFresh ⟨true, some ⟨JsonTime.time 0, ["t"], JsonTime.invalid⟩, true⟩ 0 = false :=
  (C1_parse_failure_not_fresh ⟨true, some ⟨JsonTime.time 0, ["t"], JsonTime.invalid⟩, true⟩ 0).2
    ⟨JsonTime.time 0, ["t"], JsonTime.invalid⟩ rfl rfl

/-- C8: when the metadata parses and both of its timestamps are valid dates,
isCacheFresh is true exactly when the metadata file exists, the content file
exists, the age is at most 60 days (inclusive), and now is strictly before
next_update_after. -/
theorem C8_freshness_characterization (s : StaleState) (now : Int) (m : CacheMetadata)
    (lu nu : Int) (hm : s.metadata = some m) (hlu : m.last_updated = JsonTime.time lu)
    (hnu : m.next_update_after = JsonTime.time nu) :
    isCacheFresh s now = true ↔
      (s.metadataExists = true ∧ s.intelExists = true ∧
        now - lu ≤ MAX_CACHE_AGE_DAYS * 24 * 60 * 60 * 1000 ∧ now < nu) := by
  obtain ⟨me, md, ie⟩ := s
  simp only at hm
  subst hm
  cases me <;> cases ie <;>
    simp [isCacheFresh, hlu, hnu, JsonTime.getTime, nanGt, MAX_CACHE_AGE_DAYS]

/-- C8 witness: a concrete fresh state satisfies the characterization. -/
theorem C8_freshness_characterization_witness :
    isCacheFresh ⟨true, some ⟨JsonTime.time 0, ["t"], JsonTime.time 10⟩, true⟩ 5 = true :=
  (C8_freshness_characterization ⟨true, some ⟨JsonTime.time 0, ["t"], JsonTime.time 10⟩, true⟩ 5
    ⟨JsonTime.time 0, ["t"], JsonTime.time 10⟩ 0 10 rfl rfl rfl).mpr
    ⟨rfl, rfl, by norm_num [MAX_CACHE_AGE_DAYS], by norm_num⟩

/-- C3: with at least one topic, a success ratio of at least one half (the
boundary included) yields the full refresh interval (default 30 days) and a
ratio below one half yields the thin interval (default 7 days), for both
getIntervalDays and calculateNextUpdate; and calculateNextUpdate always
equals now plus getIntervalDays days. -/
theorem C3_interval_policy (successCount totalTopics : Nat) (config : CacheConfig)
    (now : Int) (ht : 0 < totalTopics) :
    ((1 : ℚ) / 2 ≤ (successCount : ℚ) / (totalTopics : ℚ) →
      getIntervalDays successCount totalTopics config =
        config.refreshIntervalDays.getD 30 ∧
      calculateNextUpdate successCount totalTopics config now =
        now + config.refreshIntervalDays.getD 30 * (24 * 60 * 60 * 1000)) ∧
    ((successCount : ℚ) / (totalTopics : ℚ) < 1 / 2 →
      getIntervalDays successCount totalTopics config =
        config.thinCacheIntervalDays.getD 7 ∧
      calculateNextUpdate successCount totalTopics config now =
        now + config.thinCacheIntervalDays.getD 7 * (24 * 60 * 60 * 1000)) ∧
    calculateNextUpdate successCount totalTopics config now =
      now + getIntervalDays successCount totalTopics config * (24 * 60 * 60 * 1000) := by
  have htq : (0 : ℚ) < (totalTopics : ℚ) := by exact_mod_cast ht
  have hiff : ((successCount : ℚ) < (totalTopics : ℚ) / 2) ↔
      ((successCount : ℚ) / (totalTopics : ℚ) < 1 / 2) := by
    rw [lt_div_iff₀ (by norm_num : (0 : ℚ) < 2), div_lt_div_iff₀ htq (by norm_num : (0 : ℚ) < 2)]
    constructor <;> intro h <;> linarith
  refine ⟨?_, ?_, rfl⟩
  · intro hge
    have hnot : ¬ ((successCount : ℚ) < (totalTopics : ℚ) / 2) := by
      rw [hiff]
      exact not_lt.mpr hge
    exact ⟨by simp [getIntervalDays, hnot, CONFIG_DEFAULTS],
      by simp [calculateNextUpdate, hnot, CONFIG_DEFAULTS]⟩
  · intro hlt
    have hyes : (successCount : ℚ) < (totalTopics : ℚ) / 2 := hiff.mpr hlt
    exact ⟨by simp [getIntervalDays, hyes, CONFIG_DEFAULTS],
      by simp [calculateNextUpdate, hyes, CONFIG_DEFAULTS]⟩

/-- C3 witness: two of four successes is ratio one half and takes the full
30-day branch of both functions. -/
theorem C3_interval_policy_witness :
    getIntervalDays 2 4 ⟨["a", "b", "c", "d"], some 30, some 7, none, none, none, none⟩ = 30 ∧
    calculateNextUpdate 2 4 ⟨["a", "b", "c", "d"], some 30, some 7, none, none, none, none⟩ 0 =
      0 + 30 * (24 * 60 * 60 * 1000) :=
  (C3_interval_policy 2 4 ⟨["a", "b", "c", "d"], some 30, some 7, none, none, none, none⟩ 0
    (by norm_num)).1 (by norm_num)

/-- C4: buildBackoffMetadata sets next_update_after to the invocation time
plus 4 hours, records the given topics, preserves a present prior
last_updated, and falls back to the current time when no prior metadata
exists. -/
theorem C4_backoff_metadata (existing : Option CacheMetadata) (topics : List String)
    (now : Int) :
    (buildBackoffMetadata existing topics now).next_update_after =
      JsonTime.time (now + BACKOFF_HOURS * 60 * 60 * 1000) ∧
    (buildBackoffMetadata existing topics now).topics_researched = topics ∧
    (existing = none → (buildBackoffMetadata existing topics now).last_updated =
      JsonTime.time now) ∧
    (∀ m, existing = some m → m.last_updated ≠ JsonTime.absent →
      (buildBackoffMetadata existing topics now).last_updated = m.last_updated) := by
  refine ⟨rfl, rfl, ?_, ?_⟩
  · intro h
    subst h
    rfl
  · intro m hm hne
    subst hm
    cases hml : m.last_updated <;> simp_all [buildBackoffMetadata]

/-- C4 witness: with prior metadata whose last_updated is 5 ms, the backoff
metadata at time 0 preserves 5 ms and schedules the next update 4 hours out. -/
theorem C4_backoff_metadata_witness :
    (buildBackoffMetadata (some ⟨JsonTime.time 5, ["old"], JsonTime.time 9⟩) ["t"] 0).next_update_after =
      JsonTime.time (0 + BACKOFF_HOURS * 60 * 60 * 1000) ∧
    (buildBackoffMetadata (some ⟨JsonTime.time 5, ["old"], JsonTime.time 9⟩) ["t"] 0).last_updated =
      JsonTime.time 5 :=
  ⟨(C4_backoff_metadata (some ⟨JsonTime.time 5, ["old"], JsonTime.time 9⟩) ["t"] 0).1,
    (C4_backoff_metadata (some ⟨JsonTime.time 5, ["old"], JsonTime.time 9⟩) ["t"] 0).2.2.2
      ⟨JsonTime.time 5, ["old"], JsonTime.time 9⟩ rfl (by simp)⟩

/-- C9 counterexample: with prior metadata whose last_updated parses to five
hours past the epoch, the backoff write at time 0 produces metadata whose
next_update_after (four hours) is strictly before its last_updated, so the
written value violates the claimed invariant. -/
theorem C9_counterexample :
    (buildBackoffMetadata (some ⟨JsonTime.time 18000000, ["old"], JsonTime.time 0⟩) ["t"] 0).last_updated =
      JsonTime.time 18000000 ∧
    (buildBackoffMetadata (some ⟨JsonTime.time 18000000, ["old"], JsonTime.time 0⟩) ["t"] 0).next_update_after =
      JsonTime.time 14400000 ∧
    metadataOk (buildBackoffMetadata (some ⟨JsonTime.time 18000000, ["old"], JsonTime.time 0⟩) ["t"] 0) =
      false :=
  ⟨rfl, rfl, by decide⟩

/-- C9 (amended): the successful-refresh metadata satisfies
next_update_after at least last_updated whenever the resolved interval days
are nonnegative, and the backoff metadata satisfies it when no prior
metadata exists, or when the preserved prior last_updated is at most four
hours past the invocation time. -/
theorem C9_metadata_invariant (successCount : Nat) (config : CacheConfig) (now : Int)
    (existing : Option CacheMetadata) (topics : List String) :
    (0 ≤ getIntervalDays successCount config.topics.length config →
      metadataOk (refreshMetadata successCount config now) = true) ∧
    (existing = none → metadataOk (buildBackoffMetadata existing topics now) = true) ∧
    (∀ m lu, existing = some m → m.last_updated = JsonTime.time lu →
      lu ≤ now + BACKOFF_HOURS * 60 * 60 * 1000 →
      metadataOk (buildBackoffMetadata existing topics now) = true) := by
  refine ⟨?_, ?_, ?_⟩
  · intro h
    have hcalc : calculateNextUpdate successCount config.topics.length config now =
        now + getIntervalDays successCount config.topics.length config * (24 * 60 * 60 * 1000) := rfl
    have hmul : 0 ≤ getIntervalDays successCount config.topics.length config * (24 * 60 * 60 * 1000) :=
      mul_nonneg h (by norm_num)
    simp [metadataOk, refreshMetadata, JsonTime.getTime, hcalc]
    omega
  · intro h
    subst h
    simp [metadataOk, buildBackoffMetadata, JsonTime.getTime, BACKOFF_HOURS]
  · intro m lu hm hml hle
    subst hm
    simp [metadataOk, buildBackoffMetadata, hml, JsonTime.getTime, BACKOFF_HOURS] at *
    omega

/-- C9 witness: concrete instances of the three amended cases. -/
theorem C9_metadata_invariant_witness :
    metadataOk (refreshMetadata 1 ⟨["a"], none, none, none, none, none, none⟩ 0) = true ∧
    metadataOk (buildBackoffMetadata none ["a"] 0) = true ∧
    metadataOk (buildBackoffMetadata (some ⟨JsonTime.time 5, ["a"], JsonTime.time 9⟩) ["a"] 0) = true :=
  ⟨(C9_metadata_invariant 1 ⟨["a"], none, none, none, none, none, none⟩ 0 none ["a"]).1
      (by norm_num [getIntervalDays, CONFIG_DEFAULTS]),
    (C9_metadata_invariant 1 ⟨["a"], none, none, none, none, none, none⟩ 0 none ["a"]).2.1 rfl,
    (C9_metadata_invariant 1 ⟨["a"], none, none, none, none, none, none⟩ 0
      (some ⟨JsonTime.time 5, ["a"], JsonTime.time 9⟩) ["a"]).2.2
      ⟨JsonTime.time 5, ["a"], JsonTime.time 9⟩ 5 rfl rfl (by norm_num [BACKOFF_HOURS])⟩

/-- The hashes of the fresh entries a review batch builds are the batch
hashes themselves. -/
theorem map_hash_newEntries (hashes : List String) (decision : Decision) (now : String) :
    (hashes.map (fun hash => ReviewedEntry.mk hash decision now)).map ReviewedEntry.hash =
      hashes := by
  induction hashes with
  | nil => rfl
  | cons a t ih => simp only [List.map_cons, ih]

/-- Entries whose hash is outside the batch pass the removal filter, so a
per-hash query outside the batch sees the original entries. -/
theorem filter_hash_eq_of_not_mem (hashes : List String) (h : String) (hnot : h ∉ hashes)
    (l : List ReviewedEntry) :
    (l.filter (fun r => !(hashes.contains r.hash))).filter (fun r => decide (r.hash = h)) =
      l.filter (fun r => decide (r.hash = h)) := by
  rw [List.filter_filter]
  apply List.filter_congr
  intro a _
  by_cases hrh : a.hash = h
  · simp [hrh, hnot]
  · simp [hrh]

/-- The fresh entries contribute nothing to a per-hash query outside the
batch. -/
theorem filter_hash_newEntries_of_not_mem (hashes : List String) (decision : Decision)
    (now : String) (h : String) (hnot : h ∉ hashes) :
    (hashes.map (fun hash => ReviewedEntry.mk hash decision now)).filter
      (fun r => decide (r.hash = h)) = [] := by
  rw [List.filter_map]
  have hcomp : ((fun r => decide (r.hash = h)) ∘ fun hash => ReviewedEntry.mk hash decision now)
      = fun a => decide (a = h) := rfl
  rw [hcomp]
  have hnil : hashes.filter (fun a => decide (a = h)) = [] := by
    rw [List.filter_eq_nil_iff]
    intro a ha hdec
    simp only [decide_eq_true_eq] at hdec
    exact hnot (hdec ▸ ha)
  rw [hnil]
  rfl

/-- The fresh entries answer a per-hash query inside a duplicate-free batch
with exactly the one new entry. -/
theorem filter_hash_newEntries_of_mem (hashes : List String) (decision : Decision)
    (now : String) (h : String) (hnd : hashes.Nodup) (hmem : h ∈ hashes) :
    (hashes.map (fun hash => ReviewedEntry.mk hash decision now)).filter
      (fun r => decide (r.hash = h)) = [ReviewedEntry.mk h decision now] := by
  rw [List.filter_map]
  have hcomp : ((fun r => decide (r.hash = h)) ∘ fun hash => ReviewedEntry.mk hash decision now)
      = fun a => decide (a = h) := rfl
  rw [hcomp, show (fun a => decide (a = h)) = (fun a => a = h) from rfl, List.filter_eq,
    List.count_eq_one_of_mem hnd hmem]
  rfl

/-- Entries whose hash is inside the batch are removed, so a per-hash query
inside the batch sees nothing of the prior ledger. -/
theorem filter_hash_removed (hashes : List String) (h : String) (hmem : h ∈ hashes)
    (l : List ReviewedEntry) :
    (l.filter (fun r => !(hashes.contains r.hash))).filter
      (fun r => decide (r.hash = h)) = [] := by
  rw [List.filter_filter, List.filter_eq_nil_iff]
  intro a _
  by_cases hrh : a.hash = h
  · simp [hrh, hmem]
  · simp [hrh]

/-- A hash surviving the removal filter is outside the batch. -/
theorem mem_map_hash_filtered (l : List ReviewedEntry) (hashes : List String) (a : String)
    (ha : a ∈ (l.filter (fun r => !(hashes.contains r.hash))).map ReviewedEntry.hash) :
    a ∉ hashes := by
  obtain ⟨r, hrmem, hr⟩ := List.mem_map.mp ha
  have hkeep := (List.mem_filter.mp hrmem).2
  simp only [Bool.not_eq_true'] at hkeep
  intro hmem
  rw [← hr] at hmem
  simp [hmem] at hkeep

/-- C2 counterexample: reviewing the batch with the fingerprint repeated
twice against the empty ledger (a reachable prior state) leaves two entries
with the same fingerprint, so the resulting ledger does not contain at most
one entry per fingerprint. -/
theorem C2_counterexample :
    ((recordDecisions ⟨1, []⟩ ["h", "h"] Decision.accepted "t").reviewed.map
      ReviewedEntry.hash) = ["h", "h"] ∧
    ¬ ((recordDecisions ⟨1, []⟩ ["h", "h"] Decision.accepted "t").reviewed.map
      ReviewedEntry.hash).Nodup := by
  exact ⟨rfl, by decide⟩

/-- C2 (amended): the review operation keeps the version, leaves every
per-fingerprint slice outside the batch unchanged, gives each fingerprint of
a duplicate-free batch exactly the one fresh entry with the new decision,
and preserves the at-most-one-entry-per-fingerprint property when the prior
ledger has it and the batch is duplicate-free. -/
theorem C2_review_ledger (existing : ReviewedHashes) (hashes : List String)
    (decision : Decision) (now : String) :
    ((recordDecisions existing hashes decision now).version = existing.version) ∧
    (∀ h, h ∉ hashes →
      (recordDecisions existing hashes decision now).reviewed.filter
          (fun r => decide (r.hash = h)) =
        existing.reviewed.filter (fun r => decide (r.hash = h))) ∧
    (hashes.Nodup → ∀ h, h ∈ hashes →
      (recordDecisions existing hashes decision now).reviewed.filter
          (fun r => decide (r.hash = h)) =
        [ReviewedEntry.mk h decision now]) ∧
    ((existing.reviewed.map ReviewedEntry.hash).Nodup → hashes.Nodup →
      ((recordDecisions existing hashes decision now).reviewed.map ReviewedEntry.hash).Nodup) := by
  refine ⟨rfl, ?_, ?_, ?_⟩
  · intro h hnot
    simp only [recordDecisions, map_hash_newEntries, List.filter_append]
    rw [filter_hash_eq_of_not_mem hashes h hnot,
      filter_hash_newEntries_of_not_mem hashes decision now h hnot, List.append_nil]
  · intro hnd h hmem
    simp only [recordDecisions, map_hash_newEntries, List.filter_append]
    rw [filter_hash_removed hashes h hmem,
      filter_hash_newEntries_of_mem hashes decision now h hnd hmem, List.nil_append]
  · intro hend hnd
    simp only [recordDecisions, map_hash_newEntries, List.map_append]
    rw [List.nodup_append]
    refine ⟨hend.sublist ((List.filter_sublist _).map ReviewedEntry.hash), hnd, ?_⟩
    intro a ha hb
    exact mem_map_hash_filtered existing.reviewed hashes a ha hb

/-- C2 witness: reviewing the singleton batch b against a ledger holding
only a fingerprint a gives b exactly one entry carrying the new decision and
leaves the slice of a untouched. -/
theorem C2_review_ledger_witness :
    ((recordDecisions ⟨1, [⟨"a", Decision.accepted, "d1"⟩]⟩ ["b"] Decision.rejected "d2").reviewed.filter
      (fun r => decide (r.hash = "b"))) = [⟨"b", Decision.rejected, "d2"⟩] ∧
    ((recordDecisions ⟨1, [⟨"a", Decision.accepted, "d1"⟩]⟩ ["b"] Decision.rejected "d2").reviewed.filter
      (fun r => decide (r.hash = "a"))) = [⟨"a", Decision.accepted, "d1"⟩] :=
  ⟨(C2_review_ledger ⟨1, [⟨"a", Decision.accepted, "d1"⟩]⟩ ["b"] Decision.rejected "d2").2.2.1
      (by decide) "b" (by decide),
    ((C2_review_ledger ⟨1, [⟨"a", Decision.accepted, "d1"⟩]⟩ ["b"] Decision.rejected "d2").2.1
      "a" (by decide)).trans rfl⟩

/-- The reddit loop of extractFindings appends exactly the quality-filtered
reddit findings to the accumulator. -/
theorem reddit_foldl_eq (mS mL : Int) (topic : String) (items : List RedditItem) :
    ∀ acc : List Finding,
      items.foldl
        (fun findings item =>
          if item.score < mS then findings
          else if (item.why_relevant.length : Int) < mL then findings
          else findings ++ [⟨computeFindingHash item.url, .reddit, topic,
            item.title, item.why_relevant, item.url, item.score, item.date⟩]) acc =
      acc ++ (items.filter
        (fun i => passesQualityFilter mS mL i.score i.why_relevant)).map (redditFinding topic) := by
  induction items with
  | nil => intro acc; simp
  | cons i t ih =>
    intro acc
    by_cases h1 : i.score < mS
    · simp [List.foldl_cons, h1, List.filter_cons, passesQualityFilter, ih]
    · by_cases h2 : (i.why_relevant.length : Int) < mL
      · simp [List.foldl_cons, h1, h2, List.filter_cons, passesQualityFilter, ih]
      · simp [List.foldl_cons, h1, h2, List.filter_cons, passesQualityFilter, ih,
          redditFinding]

/-- The x loop of extractFindings appends exactly the quality-filtered x
findings to the accumulator. -/
theorem x_foldl_eq (mS mL : Int) (topic : String) (items : List XItem) :
    ∀ acc : List Finding,
      items.foldl
        (fun findings item =>
          if item.score < mS then findings
          else if (item.why_relevant.length : Int) < mL then findings
          else findings ++ [⟨computeFindingHash item.url, .x, topic,
            xPreview item.text, item.why_relevant, item.url, item.score, item.date⟩]) acc =
      acc ++ (items.filter
        (fun i => passesQualityFilter mS mL i.score i.why_relevant)).map (xFinding topic) := by
  induction items with
  | nil => intro acc; simp
  | cons i t ih =>
    intro acc
    by_cases h1 : i.score < mS
    · simp [List.foldl_cons, h1, List.filter_cons, passesQualityFilter, ih]
    · by_cases h2 : (i.why_relevant.length : Int) < mL
      · simp [List.foldl_cons, h1, h2, List.filter_cons, passesQualityFilter, ih]
      · simp [List.foldl_cons, h1, h2, List.filter_cons, passesQualityFilter, ih,
          xFinding]

/-- The web loop of extractFindings appends exactly the quality-filtered web
findings to the accumulator. -/
theorem web_foldl_eq (mS mL : Int) (topic : String) (items : List WebItem) :
    ∀ acc : List Finding,
      items.foldl
        (fun findings item =>
          if item.score < mS then findings
          else if (item.why_relevant.length : Int) < mL then findings
          else findings ++ [⟨computeFindingHash item.url, .web, topic,
            item.title, item.why_relevant, item.url, item.score, none⟩]) acc =
      acc ++ (items.filter
        (fun i => passesQualityFilter mS mL i.score i.why_relevant)).map (webFinding topic) := by
  induction items with
  | nil => intro acc; simp
  | cons i t ih =>
    intro acc
    by_cases h1 : i.score < mS
    · simp [List.foldl_cons, h1, List.filter_cons, passesQualityFilter, ih]
    · by_cases h2 : (i.why_relevant.length : Int) < mL
      · simp [List.foldl_cons, h1, h2, List.filter_cons, passesQualityFilter, ih]
      · simp [List.foldl_cons, h1, h2, List.filter_cons, passesQualityFilter, ih,
          webFinding]

/-- The outer report loop of extractFindings appends exactly the declarative
flattening to the accumulator. -/
theorem reports_foldl_eq (mS mL : Int) (reports : List Last30DaysReport) :
    ∀ acc : List Finding,
      reports.foldl
        (fun findings report =>
          let findings := report.reddit.foldl
            (fun findings item =>
              if item.score < mS then findings
              else if (item.why_relevant.length : Int) < mL then findings
              else findings ++ [⟨computeFindingHash item.url, .reddit, report.topic,
                item.title, item.why_relevant, item.url, item.score, item.date⟩]) findings
          let findings := report.x.foldl
            (fun findings item =>
              if item.score < mS then findings
              else if (item.why_relevant.length : Int) < mL then findings
              else findings ++ [⟨computeFindingHash item.url, .x, report.topic,
                xPreview item.text, item.why_relevant, item.url, item.score, item.date⟩]) findings
          report.web.foldl
            (fun findings item =>
              if item.score < mS then findings
              else if (item.why_relevant.length : Int) < mL then findings
              else findings ++ [⟨computeFindingHash item.url, .web, report.topic,
                item.title, item.why_relevant, item.url, item.score, none⟩]) findings) acc =
      acc ++ flatFindings mS mL reports := by
  induction reports with
  | nil => intro acc; simp [flatFindings]
  | cons r rs ih =>
    intro acc
    rw [List.foldl_cons]
    show rs.foldl _ (r.web.foldl _ (r.x.foldl _ (r.reddit.foldl _ acc))) = _
    rw [reddit_foldl_eq, x_foldl_eq, web_foldl_eq, ih, flatFindings, reportFindings]
    simp [List.append_assoc]

/-- The pair fold modelling the JavaScript Set filter produces the
declarative first-occurrence dedup. -/
theorem dedupFold_fst (l : List Finding) :
    ∀ (out : List Finding) (seen : List String),
      (l.foldl dedupStep (out, seen)).1 = out ++ dedupFirst l seen := by
  induction l with
  | nil => intro out seen; simp [dedupFirst]
  | cons f t ih =>
    intro out seen
    rw [List.foldl_cons]
    by_cases hc : f.hash ∈ seen
    · have hstep : dedupStep (out, seen) f = (out, seen) := by simp [dedupStep, hc]
      rw [hstep, ih, dedupFirst]
      simp [hc]
    · have hstep : dedupStep (out, seen) f = (out ++ [f], seen ++ [f.hash]) := by
        simp [dedupStep, hc]
      rw [hstep, ih, dedupFirst]
      simp [hc, List.append_assoc]

/-- The Set-based dedup of extract.ts equals the declarative
first-occurrence dedup started with nothing seen. -/
theorem dedupByHashFold_eq (l : List Finding) : dedupByHashFold l = dedupFirst l [] := by
  rw [dedupByHashFold, dedupFold_fst]
  rfl

/-- extractFindings is the first-occurrence dedup of the declarative ordered
flattening under the resolved thresholds. -/
theorem extractFindings_eq_spec (reports : List Last30DaysReport)
    (options : Option QualityFilterOptions) :
    extractFindings reports options =
      dedupFirst
        (flatFindings (resolvedMinScore options) (resolvedMinSummaryLength options) reports)
        [] := by
  simp only [extractFindings]
  rw [reports_foldl_eq, dedupByHashFold_eq, List.nil_append]

/-- Membership of a hash in the dedup output: it occurs in the input and was
not seen before. -/
theorem mem_map_hash_dedupFirst (l : List Finding) :
    ∀ (seen : List String) (a : String),
      a ∈ (dedupFirst l seen).map Finding.hash ↔
        (a ∈ l.map Finding.hash ∧ a ∉ seen) := by
  induction l with
  | nil => intro seen a; simp [dedupFirst]
  | cons f t ih =>
    intro seen a
    rw [List.map_cons, List.mem_cons]
    by_cases hc : f.hash ∈ seen
    · have hcont : seen.contains f.hash = true := by simpa using hc
      rw [dedupFirst, hcont, if_pos rfl, ih seen a]
      constructor
      · rintro ⟨h1, h2⟩
        exact ⟨Or.inr h1, h2⟩
      · rintro ⟨h1 | h1, h2⟩
        · exact absurd (show a ∈ seen by rw [h1]; exact hc) h2
        · exact ⟨h1, h2⟩
    · have hcont : seen.contains f.hash = false := by simpa using hc
      rw [dedupFirst, hcont, if_neg (by simp), List.map_cons, List.mem_cons,
        ih (seen ++ [f.hash]) a]
      constructor
      · rintro (rfl | ⟨h1, h2⟩)
        · exact ⟨Or.inl rfl, hc⟩
        · rw [List.mem_append, List.mem_singleton] at h2
          exact ⟨Or.inr h1, fun hs => h2 (Or.inl hs)⟩
      · rintro ⟨rfl | h1, h2⟩
        · exact Or.inl rfl
        · by_cases hfa : a = f.hash
          · exact Or.inl hfa
          · refine Or.inr ⟨h1, ?_⟩
            rw [List.mem_append, List.mem_singleton]
            rintro (hs | hs)
            · exact h2 hs
            · exact hfa hs

/-- The hashes of the dedup output are duplicate-free. -/
theorem nodup_map_hash_dedupFirst (l : List Finding) :
    ∀ seen : List String, ((dedupFirst l seen).map Finding.hash).Nodup := by
  induction l with
  | nil => intro seen; simp [dedupFirst]
  | cons f t ih =>
    intro seen
    by_cases hc : f.hash ∈ seen
    · have hcont : seen.contains f.hash = true := by simpa using hc
      rw [dedupFirst, hcont, if_pos rfl]
      exact ih seen
    · have hcont : seen.contains f.hash = false := by simpa using hc
      rw [dedupFirst, hcont, if_neg (by simp), List.map_cons, List.nodup_cons]
      refine ⟨?_, ih (seen ++ [f.hash])⟩
      intro hmem
      have h2 := ((mem_map_hash_dedupFirst t (seen ++ [f.hash]) f.hash).mp hmem).2
      simp [List.mem_append] at h2

/-- The dedup output length is the number of distinct hashes of the input. -/
theorem length_dedupFirst (l : List Finding) :
    (dedupFirst l []).length = ((l.map Finding.hash).toFinset).card := by
  have h1 : (dedupFirst l []).length = ((dedupFirst l []).map Finding.hash).length := by
    rw [List.length_map]
  rw [h1, ← List.toFinset_card_of_nodup (nodup_map_hash_dedupFirst l [])]
  congr 1
  apply Finset.ext
  intro a
  rw [List.mem_toFinset, List.mem_toFinset, mem_map_hash_dedupFirst]
  simp

/-- C5: extractFindings is the first-occurrence dedup by fingerprint of the
quality-filtered flattening, which respects input-report order and within a
report the reddit, x, web order; the output length is the number of distinct
fingerprints among the items passing the quality filter; an empty report
list yields the empty list; and so does an input all of whose items are
filtered out. -/
theorem C5_extract_order_dedup (reports : List Last30DaysReport)
    (options : Option QualityFilterOptions) :
    extractFindings reports options =
      dedupFirst
        (flatFindings (resolvedMinScore options) (resolvedMinSummaryLength options) reports)
        [] ∧
    (extractFindings reports options).length =
      ((flatFindings (resolvedMinScore options) (resolvedMinSummaryLength options) reports).map
        Finding.hash).toFinset.card ∧
    extractFindings [] options = [] ∧
    (flatFindings (resolvedMinScore options) (resolvedMinSummaryLength options) reports = [] →
      extractFindings reports options = []) := by
  have h := extractFindings_eq_spec reports options
  refine ⟨h, ?_, rfl, ?_⟩
  · rw [h, length_dedupFirst]
  · intro hnil
    rw [h, hnil]
    rfl

/-- C5 witness: a report whose only item fails the summary-length filter is
all-filtered, and extraction returns the empty list. -/
theorem C5_extract_order_dedup_witness :
    extractFindings [⟨"t", [⟨"a", "u", "r", none, "x", 100, []⟩], [], []⟩] none = [] :=
  (C5_extract_order_dedup [⟨"t", [⟨"a", "u", "r", none, "x", 100, []⟩], [], []⟩] none).2.2.2
    (by decide)

/-- C6 counterexample: with both thresholds set to 0 (which the claim says
disables both filters for every item), a reddit item with score -1 is still
rejected, because score < 0 holds for a negative engagement score. -/
theorem C6_counterexample :
    extractFindings [⟨"t", [⟨"title", "u", "r", none, "", -1, []⟩], [], []⟩]
      (some ⟨some 0, some 0⟩) = [] ∧
    passesQualityFilter 0 0 (-1) "" = false := by
  exact ⟨rfl, rfl⟩

/-- C6 (amended): the quality filter rejects exactly when score < minScore
or the summary length is below minSummaryLength; the boundary is inclusive;
score minScore - 1 fails; threshold 0 disables the summary-length filter for
every item and the score filter for every item with nonnegative score (a
negative score is still rejected); and extraction of a single reddit item
keeps it exactly when the filter passes. -/
theorem C6_quality_filter (minScore minSummaryLength score : Int) (summary : String) :
    (passesQualityFilter minScore minSummaryLength score summary = false ↔
      (score < minScore ∨ (summary.length : Int) < minSummaryLength)) ∧
    (score = minScore → (summary.length : Int) = minSummaryLength →
      passesQualityFilter minScore minSummaryLength score summary = true) ∧
    (score = minScore - 1 →
      passesQualityFilter minScore minSummaryLength score summary = false) ∧
    (minSummaryLength = 0 →
      passesQualityFilter minScore minSummaryLength score summary =
        !(decide (score < minScore))) ∧
    (minScore = 0 → 0 ≤ score →
      passesQualityFilter minScore minSummaryLength score summary =
        !(decide ((summary.length : Int) < minSummaryLength))) ∧
    (∀ (title url subreddit : String) (date : Option String) (cis : List String)
      (topic : String),
      extractFindings [⟨topic, [⟨title, url, subreddit, date, summary, score, cis⟩], [], []⟩]
          (some ⟨some minScore, some minSummaryLength⟩) =
        if passesQualityFilter minScore minSummaryLength score summary then
          [⟨computeFindingHash url, .reddit, topic, title, summary, url, score, date⟩]
        else []) := by
  refine ⟨?_, ?_, ?_, ?_, ?_, ?_⟩
  · simp [passesQualityFilter]
    omega
  · intro h1 h2
    simp [passesQualityFilter]
    omega
  · intro h1
    simp [passesQualityFilter]
    omega
  · intro h1
    subst h1
    simp [passesQualityFilter]
  · intro h1 h2
    subst h1
    simp [passesQualityFilter, not_lt.mpr h2]
  · intro title url subreddit date cis topic
    by_cases h1 : score < minScore
    · simp [extractFindings, resolvedMinScore, resolvedMinSummaryLength, Option.bind,
        dedupByHashFold, dedupStep, passesQualityFilter, h1]
    · by_cases h2 : (summary.length : Int) < minSummaryLength
      · simp [extractFindings, resolvedMinScore, resolvedMinSummaryLength, Option.bind,
          dedupByHashFold, dedupStep, passesQualityFilter, h1, h2]
      · simp [extractFindings, resolvedMinScore, resolvedMinSummaryLength, Option.bind,
          dedupByHashFold, dedupStep, passesQualityFilter, h1, h2]

/-- C6 witness: an item at both boundaries (score 25, summary of exactly 40
characters) passes the default filter. -/
theorem C6_quality_filter_witness :
    passesQualityFilter 25 40 25 "0123456789012345678901234567890123456789" = true :=
  (C6_quality_filter 25 40 25 "0123456789012345678901234567890123456789").2.1 rfl (by decide)

/-- C7: getUnreviewedFindings answers no_staged exactly when the raw-results
file is absent; with the file present it answers no_new with no findings
when every extracted finding is already in the ledger (including the case of
zero extracted findings), and has_new with exactly the unreviewed findings,
in extraction order, otherwise. -/
theorem C7_unreviewed_query (s : ReviewDirState) (options : Option QualityFilterOptions) :
    (s.stagedRawExists = false →
      getUnreviewedFindings s options = ⟨.no_staged, []⟩) ∧
    (s.stagedRawExists = true → unreviewedOf s options = [] →
      getUnreviewedFindings s options = ⟨.no_new, []⟩) ∧
    (s.stagedRawExists = true → unreviewedOf s options ≠ [] →
      getUnreviewedFindings s options = ⟨.has_new, unreviewedOf s options⟩) ∧
    ((getUnreviewedFindings s options).status = .no_staged ↔ s.stagedRawExists = false) := by
  obtain ⟨ex, content, rv⟩ := s
  cases ex
  · refine ⟨fun _ => rfl, ?_, ?_, ?_⟩
    · intro h
      exact absurd h (by simp)
    · intro h
      exact absurd h (by simp)
    · simp [getUnreviewedFindings]
  · have hbody : getUnreviewedFindings ⟨true, content, rv⟩ options =
        if (extractFindings (content.getD []) options).length = 0 then ⟨.no_new, []⟩
        else if (unreviewedOf ⟨true, content, rv⟩ options).length = 0 then ⟨.no_new, []⟩
        else ⟨.has_new, unreviewedOf ⟨true, content, rv⟩ options⟩ := rfl
    by_cases h0 : (extractFindings (content.getD []) options).length = 0
    · have hall : extractFindings (content.getD []) options = [] :=
        List.length_eq_zero.mp h0
      have hunrev : unreviewedOf ⟨true, content, rv⟩ options = [] := by
        simp [unreviewedOf, hall]
      refine ⟨?_, ?_, ?_, ?_⟩
      · intro h
        exact absurd h (by simp)
      · intro _ _
        rw [hbody, if_pos h0]
      · intro _ hne
        exact absurd hunrev hne
      · rw [hbody, if_pos h0]
        simp
    · by_cases h1 : (unreviewedOf ⟨true, content, rv⟩ options).length = 0
      · have hu : unreviewedOf ⟨true, content, rv⟩ options = [] :=
          List.length_eq_zero.mp h1
        refine ⟨?_, ?_, ?_, ?_⟩
        · intro h
          exact absurd h (by simp)
        · intro _ _
          rw [hbody, if_neg h0, if_pos h1]
        · intro _ hne
          exact absurd hu hne
        · rw [hbody, if_neg h0, if_pos h1]
          simp
      · refine ⟨?_, ?_, ?_, ?_⟩
        · intro h
          exact absurd h (by simp)
        · intro _ hu
          exact absurd (by rw [hu]; rfl) h1
        · intro _ _
          rw [hbody, if_neg h0, if_neg h1]
        · rw [hbody, if_neg h0, if_neg h1]
          simp

/-- C7 witness: with no staged raw file the query reports no_staged and no
findings. -/
theorem C7_unreviewed_query_witness :
    getUnreviewedFindings ⟨false, none, none⟩ none = ⟨.no_staged, []⟩ :=
  (C7_unreviewed_query ⟨false, none, none⟩ none).1 rfl

/-- C10: when the staged raw file exists but its content is unparsable,
readJsonFileOrDefault substitutes the empty report list, extraction yields
nothing, and the query returns no_new with no findings rather than throwing
or reporting no_staged. -/
theorem C10_corrupt_raw_no_new (rv : Option ReviewedHashes)
    (options : Option QualityFilterOptions) :
    getUnreviewedFindings ⟨true, none, rv⟩ options = ⟨.no_new, []⟩ := by
  rfl

end CommunityIntelCache
